import Mathlib

/-!
Verification of the slice-to-structure aggregation pipeline of
`dls_topaz3/evaluate_model.py`.

Predictions are pairs of rational scores (channel 0 = negative, channel 1 =
positive), modelling the float pairs produced by the external inference step.
Each numbered definition below is a shallow embedding of a concrete expression
in `evaluate`, referenced by its line numbers in the source file.
-/

namespace Topaz3

/-- One per-slice prediction: (negative channel, positive channel),
i.e. Python's `pred[0]`, `pred[1]`. -/
abbrev Pred := ℚ × ℚ

/-- `predictions_decoded = [int(pred[1] > pred[0]) for pred in predictions]`
(evaluate_model.py line 95). -/
def predictions_decoded (preds : List Pred) : List ℤ :=
  preds.map (fun p => if p.1 < p.2 then 1 else 0)

/-- The slice `predictions[slices_per_structure*i : slices_per_structure*i +
slices_per_structure]` used by every per-structure comprehension
(lines 141-161, 184-206, 232-236). -/
def batchSlice {α : Type} (xs : List α) (S i : ℕ) : List α :=
  (xs.drop (S * i)).take S

/-- The family of contiguous batches produced by iterating `batchSlice` over
`range(int(len(xs) / S))`, exactly as the comprehensions at lines 141-161 and
184-206 do. -/
def partitionSlices {α : Type} (xs : List α) (S : ℕ) : List (List α) :=
  (List.range (xs.length / S)).map (batchSlice xs S)

/-- `np.mean` of a list of rationals (the batches it is applied to are
always nonempty in `evaluate`). -/
def listMean (xs : List ℚ) : ℚ := xs.sum / (xs.length : ℚ)

/-- `predictions_structure_avg` (lines 141-161): per batch, the mean of
channel 0 and the mean of channel 1. -/
def predictions_structure_avg (preds : List Pred) (S : ℕ) : List (ℚ × ℚ) :=
  (List.range (preds.length / S)).map (fun i =>
    (listMean ((batchSlice preds S i).map Prod.fst),
     listMean ((batchSlice preds S i).map Prod.snd)))

/-- `predictions_by_result = [(int(pred[0] > pred[1]), int(pred[1] > pred[0]))
for pred in predictions]` (lines 181-183). -/
def predictions_by_result (preds : List Pred) : List (ℤ × ℤ) :=
  preds.map (fun p => (if p.2 < p.1 then 1 else 0, if p.1 < p.2 then 1 else 0))

/-- `predictions_structure_count` (lines 184-206): per batch, the sum of each
column of `predictions_by_result`, divided by `slices_per_structure`. -/
def predictions_structure_count (preds : List Pred) (S : ℕ) : List (ℚ × ℚ) :=
  (List.range (preds.length / S)).map (fun i =>
    (((((batchSlice (predictions_by_result preds) S i).map Prod.fst).sum : ℤ) : ℚ) / (S : ℚ),
     ((((batchSlice (predictions_by_result preds) S i).map Prod.snd).sum : ℤ) : ℚ) / (S : ℚ)))

/-- `predictions_struct_avg_flat = [int(pred > 0.5) for pred in
predictions_structure_avg[:, 1]]` (lines 225-227). -/
def predictions_struct_avg_flat (preds : List Pred) (S : ℕ) : List ℤ :=
  (predictions_structure_avg preds S).map (fun p => if (1 : ℚ)/2 < p.2 then 1 else 0)

/-- `predictions_struct_count_flat = [int(pred > 0.5) for pred in
predictions_structure_count[:, 1]]` (lines 228-230). -/
def predictions_struct_count_flat (preds : List Pred) (S : ℕ) : List ℤ :=
  (predictions_structure_count preds S).map (fun p => if (1 : ℚ)/2 < p.2 then 1 else 0)

/-- `testing_info_by_structure = [labels[slices_per_structure * i] for i in
range(int(len(labels) / slices_per_structure))]` (lines 232-236). -/
def testing_info_by_structure (labels : List ℤ) (S : ℕ) : List ℤ :=
  (List.range (labels.length / S)).map (fun i => labels.getD (S * i) 0)

/-- The sorted unique label values appearing in either argument of
`sklearn.metrics.confusion_matrix` (calls at lines 129, 243, 258). -/
def cmLabelValues (pred tru : List ℤ) : List ℤ :=
  List.insertionSort (· ≤ ·) (pred ++ tru).dedup

/-- `sklearn.metrics.confusion_matrix(pred, tru)`: the square matrix indexed
by the sorted unique labels, cell (i, j) counting samples whose first-argument
label is i and second-argument label is j. -/
def confusion_matrix (pred tru : List ℤ) : List (List ℕ) :=
  (cmLabelValues pred tru).map (fun i =>
    (cmLabelValues pred tru).map (fun j =>
      (pred.zip tru).countP (fun x => x.1 == i && x.2 == j)))

/-- Sum of all cells of a matrix. -/
def matrixSum (m : List (List ℕ)) : ℕ := (m.map List.sum).sum

/-- The bundle of intermediate tables and reports `evaluate` computes once the
cardinality assertions have passed. -/
structure EvalResult where
  per_image_pred : List ℤ
  per_image_true : List ℤ
  per_image_conf : List (List ℕ)
  structure_avg : List (ℚ × ℚ)
  structure_count : List (ℚ × ℚ)
  struct_avg_pred : List ℤ
  struct_count_pred : List ℤ
  structure_true : List ℤ
  structure_avg_conf : List (List ℕ)
  structure_count_conf : List (List ℕ)

/-- The aggregation core of `evaluate` (lines 38-50 and 89-266): assert
`len > 0`, assert `len % slices_per_structure == 0` (the AssertionError plays
the spec's `InvalidCardinality` role), then build every table and report.
`labels` is the per-slice label column of `testing_dataframe`, which the
caller constructs with one label per file. -/
def evalTables (preds : List Pred) (labels : List ℤ) (S : ℕ) : EvalResult :=
  { per_image_pred := predictions_decoded preds
    per_image_true := labels
    per_image_conf := confusion_matrix (predictions_decoded preds) labels
    structure_avg := predictions_structure_avg preds S
    structure_count := predictions_structure_count preds S
    struct_avg_pred := predictions_struct_avg_flat preds S
    struct_count_pred := predictions_struct_count_flat preds S
    structure_true := testing_info_by_structure labels S
    structure_avg_conf :=
      confusion_matrix (predictions_struct_avg_flat preds S)
        (testing_info_by_structure labels S)
    structure_count_conf :=
      confusion_matrix (predictions_struct_count_flat preds S)
        (testing_info_by_structure labels S) }

/-- The checked entry point: the two cardinality assertions guard every
computation, so a failed assertion yields an error and no tables. -/
def evaluate (preds : List Pred) (labels : List ℤ) (S : ℕ) :
    Except String EvalResult :=
  if preds.length = 0 then
    Except.error "Could not find files at test_dir"
  else if ¬ preds.length % S = 0 then
    Except.error "Number of test files is not an exact multiple of slices per structure"
  else
    Except.ok (evalTables preds labels S)

/-- Position of the last `'_'` immediately followed by a digit in a filename
stem: the end of the greedy first match of `re.findall("(.*)(?=_[0-9]+)", stem)`
(line 62). `none` models `findall` returning the empty list, so that
`[0]` raises IndexError. -/
def last_uscore_digit : List Char → Option ℕ
  | [] => none
  | [_] => none
  | a :: b :: rest =>
    match last_uscore_digit (b :: rest) with
    | some j => some (j + 1)
    | none => if a == '_' && b.isDigit then some 0 else none

/-- `re.findall("(.*)(?=_[0-9]+)", stem)[0]` (line 62): the stem up to the
last underscore-digit position, or `none` (IndexError) when the pattern never
matches. -/
def structure_name (stem : List Char) : Option (List Char) :=
  (last_uscore_digit stem).map (fun j => stem.take j)

/-! ### Helper lemmas -/

lemma getD_map_of_lt {α β : Type} (l : List α) (f : α → β) (i : ℕ) (d : β)
    (d' : α) (hi : i < l.length) : (l.map f).getD i d = f (l.getD i d') := by
  rw [List.getD_eq_getElem _ _ (by simpa using hi),
    List.getD_eq_getElem _ _ hi, List.getElem_map]

lemma getD_range_map {β : Type} (n i : ℕ) (f : ℕ → β) (d : β) (h : i < n) :
    ((List.range n).map f).getD i d = f i := by
  rw [getD_map_of_lt _ _ _ _ 0 (by simpa using h),
    List.getD_eq_getElem _ _ (by simpa using h), List.getElem_range]

lemma batchSlice_length {α : Type} (xs : List α) (S i : ℕ)
    (hi : i < xs.length / S) : (batchSlice xs S i).length = S := by
  have h1 : S * (i + 1) ≤ S * (xs.length / S) :=
    Nat.mul_le_mul_left S (Nat.succ_le_of_lt hi)
  have h2 : S * (xs.length / S) ≤ xs.length := Nat.mul_div_le xs.length S
  have hle : S * i + S ≤ xs.length := by
    have h3 : S * i + S = S * (i + 1) := by ring
    exact h3 ▸ h1.trans h2
  simp only [batchSlice, List.length_take, List.length_drop]
  omega

lemma batchSlice_map {α β : Type} (xs : List α) (f : α → β) (S i : ℕ) :
    batchSlice (xs.map f) S i = (batchSlice xs S i).map f := by
  simp [batchSlice, List.map_take, List.map_drop]

lemma join_batchSlices {α : Type} (S : ℕ) (n : ℕ) :
    ∀ xs : List α, xs.length = S * n →
      ((List.range n).map (fun i => (xs.drop (S * i)).take S)).flatten = xs := by
  induction n with
  | zero =>
    intro xs h
    simp only [Nat.mul_zero] at h
    simp [List.eq_nil_of_length_eq_zero h]
  | succ n ih =>
    intro xs h
    rw [List.range_succ_eq_map, List.map_cons, List.flatten_cons, List.map_map]
    have hlen : (xs.drop S).length = S * n := by
      rw [List.length_drop, h, Nat.mul_succ]
      omega
    have hmap : (List.range n).map
        ((fun i => (xs.drop (S * i)).take S) ∘ Nat.succ) =
        (List.range n).map (fun i => ((xs.drop S).drop (S * i)).take S) := by
      refine List.map_congr_left fun i _ => ?_
      simp only [Function.comp_apply]
      rw [List.drop_drop]
      congr 2
      rw [Nat.succ_eq_add_one, Nat.mul_succ]
      omega
    rw [hmap, ih (xs.drop S) hlen]
    simp only [Nat.mul_zero, List.drop_zero]
    exact List.take_append_drop S xs

lemma sum_map_ite_eq_countP {α : Type} (l : List α) (p : α → Prop)
    [DecidablePred p] :
    (l.map (fun x => if p x then (1 : ℤ) else 0)).sum =
      (l.countP (fun x => decide (p x)) : ℤ) := by
  induction l with
  | nil => simp
  | cons a l ih =>
    by_cases h : p a
    · simp only [List.map_cons, List.sum_cons, List.countP_cons, if_pos h, ih,
        decide_eq_true_eq, if_pos h]
      push_cast
      ring
    · simp [List.countP_cons, h, ih]

lemma mul_length_lt_sum (xs : List ℚ) (c : ℚ) (hne : xs ≠ [])
    (h : ∀ x ∈ xs, c < x) : c * (xs.length : ℚ) < xs.sum := by
  induction xs with
  | nil => exact absurd rfl hne
  | cons a l ih =>
    rcases eq_or_ne l [] with rfl | hl
    · simpa using h a (by simp)
    · have hs := ih hl fun x hx => h x (List.mem_cons_of_mem _ hx)
      have ha := h a (List.mem_cons_self a l)
      simp only [List.sum_cons, List.length_cons]
      push_cast
      linarith

lemma sum_le_mul_length (xs : List ℚ) (c : ℚ) (h : ∀ x ∈ xs, x ≤ c) :
    xs.sum ≤ c * (xs.length : ℚ) := by
  induction xs with
  | nil => simp
  | cons a l ih =>
    have hs := ih fun x hx => h x (List.mem_cons_of_mem _ hx)
    have ha := h a (List.mem_cons_self a l)
    simp only [List.sum_cons, List.length_cons]
    push_cast
    linarith

lemma lt_listMean (xs : List ℚ) (c : ℚ) (hne : xs ≠ [])
    (h : ∀ x ∈ xs, c < x) : c < listMean xs := by
  have hlen : 0 < (xs.length : ℚ) := by
    exact_mod_cast List.length_pos.mpr hne
  rw [listMean, lt_div_iff₀ hlen]
  exact mul_length_lt_sum xs c hne h

lemma listMean_le (xs : List ℚ) (c : ℚ) (hne : xs ≠ [])
    (h : ∀ x ∈ xs, x ≤ c) : listMean xs ≤ c := by
  have hlen : 0 < (xs.length : ℚ) := by
    exact_mod_cast List.length_pos.mpr hne
  rw [listMean, div_le_iff₀ hlen]
  exact sum_le_mul_length xs c h

lemma pos_of_lt_div {L S i : ℕ} (hi : i < L / S) : 0 < S := by
  rcases Nat.eq_zero_or_pos S with rfl | h
  · rw [Nat.div_zero] at hi
    exact absurd hi (Nat.not_lt_zero i)
  · exact h

/-- Value of the per-structure count table at an in-range index: each column
is the number of slices won by that channel, over `slices_per_structure`. -/
lemma structure_count_getD (preds : List Pred) (S i : ℕ)
    (hi : i < preds.length / S) :
    (predictions_structure_count preds S).getD i (0, 0) =
      ((((batchSlice preds S i).countP (fun p => decide (p.2 < p.1)) : ℤ) : ℚ) / (S : ℚ),
       (((batchSlice preds S i).countP (fun p => decide (p.1 < p.2)) : ℤ) : ℚ) / (S : ℚ)) := by
  rw [predictions_structure_count, getD_range_map _ _ _ _ hi]
  have hb : batchSlice (predictions_by_result preds) S i =
      (batchSlice preds S i).map (fun p : Pred =>
        ((if p.2 < p.1 then (1 : ℤ) else 0), (if p.1 < p.2 then (1 : ℤ) else 0))) := by
    rw [predictions_by_result, batchSlice_map]
  rw [hb]
  simp only [List.map_map]
  have e1 : (Prod.fst ∘ fun p : Pred =>
      ((if p.2 < p.1 then (1 : ℤ) else 0), (if p.1 < p.2 then (1 : ℤ) else 0))) =
      fun p : Pred => if p.2 < p.1 then (1 : ℤ) else 0 := rfl
  have e2 : (Prod.snd ∘ fun p : Pred =>
      ((if p.2 < p.1 then (1 : ℤ) else 0), (if p.1 < p.2 then (1 : ℤ) else 0))) =
      fun p : Pred => if p.1 < p.2 then (1 : ℤ) else 0 := rfl
  rw [e1, e2, sum_map_ite_eq_countP, sum_map_ite_eq_countP]

/-- Value of the per-structure average table at an in-range index. -/
lemma structure_avg_getD (preds : List Pred) (S i : ℕ)
    (hi : i < preds.length / S) :
    (predictions_structure_avg preds S).getD i (0, 0) =
      (listMean ((batchSlice preds S i).map Prod.fst),
       listMean ((batchSlice preds S i).map Prod.snd)) := by
  rw [predictions_structure_avg, getD_range_map _ _ _ _ hi]

lemma struct_count_flat_getD (preds : List Pred) (S i : ℕ)
    (hi : i < preds.length / S) :
    (predictions_struct_count_flat preds S).getD i 0 =
      if (1 : ℚ)/2 < ((predictions_structure_count preds S).getD i (0, 0)).2
      then 1 else 0 := by
  have hlen : (predictions_structure_count preds S).length = preds.length / S := by
    simp [predictions_structure_count]
  rw [predictions_struct_count_flat,
    getD_map_of_lt _ _ _ _ (0, 0) (by rw [hlen]; exact hi)]

lemma struct_avg_flat_getD (preds : List Pred) (S i : ℕ)
    (hi : i < preds.length / S) :
    (predictions_struct_avg_flat preds S).getD i 0 =
      if (1 : ℚ)/2 < ((predictions_structure_avg preds S).getD i (0, 0)).2
      then 1 else 0 := by
  have hlen : (predictions_structure_avg preds S).length = preds.length / S := by
    simp [predictions_structure_avg]
  rw [predictions_struct_avg_flat,
    getD_map_of_lt _ _ _ _ (0, 0) (by rw [hlen]; exact hi)]

/-! ### Claim theorems -/

/-- C1: iterating the batch slices over `range(len(predictions) //
slices_per_structure)` yields exactly `L / S` batches, each of exactly `S`
elements, whose in-order concatenation is the original prediction sequence. -/
theorem partition_invariant (preds : List Pred) (S : ℕ)
    (hL : 0 < preds.length) (hmod : preds.length % S = 0) :
    (partitionSlices preds S).length = preds.length / S ∧
    (∀ b ∈ partitionSlices preds S, b.length = S) ∧
    (partitionSlices preds S).flatten = preds := by
  have hdvd : S ∣ preds.length := Nat.dvd_of_mod_eq_zero hmod
  have hfull : preds.length = S * (preds.length / S) := by
    rw [Nat.mul_comm]
    exact (Nat.div_mul_cancel hdvd).symm
  refine ⟨by simp [partitionSlices], ?_, ?_⟩
  · intro b hb
    simp only [partitionSlices, List.mem_map, List.mem_range] at hb
    obtain ⟨i, hi, rfl⟩ := hb
    exact batchSlice_length preds S i hi
  · simp only [partitionSlices, batchSlice]
    exact join_batchSlices S (preds.length / S) preds hfull

/-- Witness for C1 on four predictions in two batches of two. -/
theorem partition_invariant_witness :
    0 < ([((0 : ℚ), 1), ((1 : ℚ), 0), ((0 : ℚ), 1), ((1 : ℚ), 0)] : List Pred).length ∧
    ([((0 : ℚ), 1), ((1 : ℚ), 0), ((0 : ℚ), 1), ((1 : ℚ), 0)] : List Pred).length % 2 = 0 ∧
    (partitionSlices [((0 : ℚ), 1), ((1 : ℚ), 0), ((0 : ℚ), 1), ((1 : ℚ), 0)] 2).length = 2 ∧
    (partitionSlices [((0 : ℚ), 1), ((1 : ℚ), 0), ((0 : ℚ), 1), ((1 : ℚ), 0)] 2).flatten =
      ([((0 : ℚ), 1), ((1 : ℚ), 0), ((0 : ℚ), 1), ((1 : ℚ), 0)] : List Pred) := by
  have h := partition_invariant
    [((0 : ℚ), 1), ((1 : ℚ), 0), ((0 : ℚ), 1), ((1 : ℚ), 0)] 2 (by simp) (by simp)
  exact ⟨by simp, by simp, by simpa using h.1, h.2.2⟩

/-- C4: the per-slice decision is a direct pairwise comparison of the
channels: 1 exactly when the positive channel strictly exceeds the negative
channel, 0 otherwise, so a tied prediction decodes to 0. -/
theorem slice_decision_strict (preds : List Pred) (i : ℕ)
    (hi : i < preds.length) :
    ((predictions_decoded preds).getD i 0 = 1 ↔
        (preds.getD i (0, 0)).1 < (preds.getD i (0, 0)).2) ∧
    ((predictions_decoded preds).getD i 0 = 0 ↔
        ¬ (preds.getD i (0, 0)).1 < (preds.getD i (0, 0)).2) ∧
    ((preds.getD i (0, 0)).1 = (preds.getD i (0, 0)).2 →
        (predictions_decoded preds).getD i 0 = 0) := by
  have h := getD_map_of_lt preds
    (fun p => if p.1 < p.2 then (1 : ℤ) else 0) i 0 (0, 0) hi
  unfold predictions_decoded
  rw [h]
  generalize preds.getD i (0, 0) = q
  by_cases hlt : q.1 < q.2
  · refine ⟨by simp [hlt], by simp [hlt], fun he => ?_⟩
    exact absurd hlt (by rw [he]; exact lt_irrefl _)
  · exact ⟨by simp [hlt], by simp [hlt], fun _ => by simp [hlt]⟩

/-- Witness for C4 at the concrete prediction (0.3, 0.7). -/
theorem slice_decision_strict_witness :
    0 < ([((3 : ℚ)/10, 7/10)] : List Pred).length ∧
    (predictions_decoded [((3 : ℚ)/10, 7/10)]).getD 0 0 = 1 :=
  ⟨by simp, by
    have h := slice_decision_strict [((3 : ℚ)/10, 7/10)] 0 (by simp)
    exact h.1.mpr (by norm_num)⟩

/-- C5: the average-based structure decision is 1 exactly when the batch mean
of the positive channel strictly exceeds 1/2, the count-based decision is 1
exactly when the count fraction strictly exceeds 1/2, and a mean of exactly
1/2 yields decision 0. -/
theorem structure_decision_threshold (preds : List Pred) (S i : ℕ)
    (hi : i < preds.length / S) :
    ((predictions_struct_avg_flat preds S).getD i 0 = 1 ↔
        1/2 < ((predictions_structure_avg preds S).getD i (0, 0)).2) ∧
    ((predictions_struct_count_flat preds S).getD i 0 = 1 ↔
        1/2 < ((predictions_structure_count preds S).getD i (0, 0)).2) ∧
    (((predictions_structure_avg preds S).getD i (0, 0)).2 = 1/2 →
        (predictions_struct_avg_flat preds S).getD i 0 = 0) := by
  have hlen_a : (predictions_structure_avg preds S).length = preds.length / S := by
    simp [predictions_structure_avg]
  have hlen_c : (predictions_structure_count preds S).length = preds.length / S := by
    simp [predictions_structure_count]
  have ha := getD_map_of_lt (predictions_structure_avg preds S)
    (fun p => if (1 : ℚ)/2 < p.2 then (1 : ℤ) else 0) i 0 (0, 0) (by rw [hlen_a]; exact hi)
  have hc := getD_map_of_lt (predictions_structure_count preds S)
    (fun p => if (1 : ℚ)/2 < p.2 then (1 : ℤ) else 0) i 0 (0, 0) (by rw [hlen_c]; exact hi)
  unfold predictions_struct_avg_flat predictions_struct_count_flat
  rw [ha, hc]
  generalize (predictions_structure_avg preds S).getD i (0, 0) = a
  generalize (predictions_structure_count preds S).getD i (0, 0) = c
  refine ⟨?_, ?_, ?_⟩
  · by_cases h : (1 : ℚ)/2 < a.2 <;> simp [h]
  · by_cases h : (1 : ℚ)/2 < c.2 <;> simp [h]
  · intro he
    simp [he]

/-- Witness for C5 at one batch of the single prediction (0.3, 0.7). -/
theorem structure_decision_threshold_witness :
    0 < ([((3 : ℚ)/10, 7/10)] : List Pred).length / 1 ∧
    (predictions_struct_avg_flat [((3 : ℚ)/10, 7/10)] 1).getD 0 0 = 1 := by
  refine ⟨by simp, ?_⟩
  have h := structure_decision_threshold [((3 : ℚ)/10, 7/10)] 1 0 (by simp)
  exact h.1.mpr (by norm_num [predictions_structure_avg, listMean, batchSlice])

/-- C6: `evaluate` succeeds exactly when the prediction count is positive and
an exact multiple of `slices_per_structure`, and otherwise fails with the
cardinality error before producing any result. -/
theorem cardinality_check (preds : List Pred) (labels : List ℤ) (S : ℕ) :
    ((∃ r, evaluate preds labels S = Except.ok r) ↔
      0 < preds.length ∧ preds.length % S = 0) ∧
    ((∃ msg, evaluate preds labels S = Except.error msg) ↔
      preds.length = 0 ∨ ¬ preds.length % S = 0) := by
  unfold evaluate
  by_cases h0 : preds.length = 0 <;> by_cases hm : preds.length % S = 0 <;>
    simp [h0, hm] <;> omega

/-- Witness for C6: a conforming input is accepted, the empty input is
rejected. -/
theorem cardinality_check_witness :
    (∃ r, evaluate [((3 : ℚ)/10, 7/10)] [1] 1 = Except.ok r) ∧
    (∃ msg, evaluate ([] : List Pred) [] 60 = Except.error msg) := by
  refine ⟨?_, ?_⟩
  · exact (cardinality_check [((3 : ℚ)/10, 7/10)] [1] 1).1.mpr (by simp)
  · exact (cardinality_check [] [] 60).2.mpr (by simp)

/-- Counterexample to C2: the single-slice batch (0.1, 0.2) has count
fraction exactly 1 (its slice is positive-dominant), yet the average-based
structure decision is 0, not 1: the positive channel mean is 0.2 ≤ 0.5. -/
theorem decision_consistency_cex :
    ((predictions_structure_count [((1 : ℚ)/10, 2/10)] 1).getD 0 (0, 0)).2 = 1 ∧
    ¬ (predictions_struct_avg_flat [((1 : ℚ)/10, 2/10)] 1).getD 0 0 = 1 ∧
    (predictions_struct_avg_flat [((1 : ℚ)/10, 2/10)] 1).getD 0 0 = 0 := by
  refine ⟨?_, ?_, ?_⟩
  · norm_num [predictions_structure_count, predictions_by_result, batchSlice]
  · norm_num [predictions_struct_avg_flat, predictions_structure_avg, listMean,
      batchSlice]
  · norm_num [predictions_struct_avg_flat, predictions_structure_avg, listMean,
      batchSlice]

/-- C2 amended: for a batch with count fraction 1.0 the count-based structure
decision is 1, and for count fraction 0.0 it is 0; the average-based decision
agrees under the additional assumption that each slice's two channels sum to
1 (normalized scores), which the raw model outputs need not satisfy. -/
theorem decision_consistency_amended (preds : List Pred) (S i : ℕ)
    (hi : i < preds.length / S) :
    (((predictions_structure_count preds S).getD i (0, 0)).2 = 1 →
      (predictions_struct_count_flat preds S).getD i 0 = 1 ∧
      ((∀ p ∈ batchSlice preds S i, p.1 + p.2 = 1) →
        (predictions_struct_avg_flat preds S).getD i 0 = 1)) ∧
    (((predictions_structure_count preds S).getD i (0, 0)).2 = 0 →
      (predictions_struct_count_flat preds S).getD i 0 = 0 ∧
      ((∀ p ∈ batchSlice preds S i, p.1 + p.2 = 1) →
        (predictions_struct_avg_flat preds S).getD i 0 = 0)) := by
  have hS : 0 < S := pos_of_lt_div hi
  have hSQ : (S : ℚ) ≠ 0 := Nat.cast_ne_zero.mpr hS.ne'
  have hblen : (batchSlice preds S i).length = S := batchSlice_length preds S i hi
  have hbne : batchSlice preds S i ≠ [] := by
    intro hnil
    rw [hnil] at hblen
    simp at hblen
    omega
  have hcnt := structure_count_getD preds S i hi
  have hcfl := struct_count_flat_getD preds S i hi
  have hafl := struct_avg_flat_getD preds S i hi
  have havg := structure_avg_getD preds S i hi
  constructor
  · intro hcf1
    refine ⟨by rw [hcfl, hcf1]; norm_num, fun hnorm => ?_⟩
    have hcf1' : (((batchSlice preds S i).countP
        (fun p => decide (p.1 < p.2)) : ℤ) : ℚ) / (S : ℚ) = 1 := by
      rw [hcnt] at hcf1
      exact hcf1
    rw [div_eq_one_iff_eq hSQ] at hcf1'
    have hcount : (batchSlice preds S i).countP (fun p => decide (p.1 < p.2)) = S := by
      exact_mod_cast hcf1'
    have hall : ∀ p ∈ batchSlice preds S i, p.1 < p.2 := by
      intro p hp
      have := (List.countP_eq_length).mp (by rw [hcount, hblen]) p hp
      simpa using this
    have hmean : (1 : ℚ)/2 < listMean ((batchSlice preds S i).map Prod.snd) := by
      refine lt_listMean _ _ (by simpa using hbne) ?_
      intro x hx
      obtain ⟨p, hp, rfl⟩ := List.mem_map.mp hx
      have h1 := hall p hp
      have h2 := hnorm p hp
      linarith
    rw [hafl, havg]
    simpa using hmean
  · intro hcf0
    refine ⟨by rw [hcfl, hcf0]; norm_num, fun hnorm => ?_⟩
    have hcf0' : (((batchSlice preds S i).countP
        (fun p => decide (p.1 < p.2)) : ℤ) : ℚ) / (S : ℚ) = 0 := by
      rw [hcnt] at hcf0
      exact hcf0
    rw [div_eq_zero_iff] at hcf0'
    have hcount : (batchSlice preds S i).countP (fun p => decide (p.1 < p.2)) = 0 := by
      rcases hcf0' with h | h
      · exact_mod_cast h
      · exact absurd h hSQ
    have hnone : ∀ p ∈ batchSlice preds S i, ¬ p.1 < p.2 := by
      intro p hp
      have := (List.countP_eq_zero).mp hcount p hp
      simpa using this
    have hmean : listMean ((batchSlice preds S i).map Prod.snd) ≤ (1 : ℚ)/2 := by
      refine listMean_le _ _ (by simpa using hbne) ?_
      intro x hx
      obtain ⟨p, hp, rfl⟩ := List.mem_map.mp hx
      have h1 := hnone p hp
      have h2 := hnorm p hp
      linarith
    rw [hafl, havg]
    simpa using not_lt.mpr hmean

/-- Witness for C2 amended at the normalized batch [(0.3, 0.7)]. -/
theorem decision_consistency_amended_witness :
    (predictions_struct_count_flat [((3 : ℚ)/10, 7/10)] 1).getD 0 0 = 1 ∧
    (predictions_struct_avg_flat [((3 : ℚ)/10, 7/10)] 1).getD 0 0 = 1 := by
  have h := decision_consistency_amended [((3 : ℚ)/10, 7/10)] 1 0 (by simp)
  have hp := h.1 (by
    norm_num [predictions_structure_count, predictions_by_result, batchSlice])
  refine ⟨hp.1, hp.2 ?_⟩
  intro p hp'
  simp [batchSlice] at hp'
  rw [hp']
  norm_num

/-- Counterexample to C3: with the tied slice (0.5, 0.5) and
`slices_per_structure = 1`, both count columns are 0, so the negative column
is not `1 - count_fraction`. -/
theorem count_columns_cex :
    ((predictions_structure_count [((1 : ℚ)/2, 1/2)] 1).getD 0 (0, 0)).1 = 0 ∧
    ((predictions_structure_count [((1 : ℚ)/2, 1/2)] 1).getD 0 (0, 0)).2 = 0 ∧
    ¬ ((predictions_structure_count [((1 : ℚ)/2, 1/2)] 1).getD 0 (0, 0)).1 =
        1 - ((predictions_structure_count [((1 : ℚ)/2, 1/2)] 1).getD 0 (0, 0)).2 := by
  refine ⟨?_, ?_, ?_⟩ <;>
    norm_num [predictions_structure_count, predictions_by_result, batchSlice]

lemma countP_gt_add_countP_lt (l : List Pred) (h : ∀ p ∈ l, p.1 ≠ p.2) :
    l.countP (fun p => decide (p.2 < p.1)) +
      l.countP (fun p => decide (p.1 < p.2)) = l.length := by
  induction l with
  | nil => simp
  | cons a l ih =>
    have hne := h a (List.mem_cons_self a l)
    have ht := ih fun p hp => h p (List.mem_cons_of_mem _ hp)
    rcases lt_or_gt_of_ne hne with hlt | hgt
    · have h1 : (decide (a.2 < a.1)) = false := by
        simp [not_lt.mpr (le_of_lt hlt)]
      have h2 : (decide (a.1 < a.2)) = true := by simp [hlt]
      simp only [List.countP_cons, h1, h2, List.length_cons, if_true,
        Bool.false_eq_true, if_false]
      omega
    · have h1 : (decide (a.2 < a.1)) = true := by simp [hgt]
      have h2 : (decide (a.1 < a.2)) = false := by
        simp [not_lt.mpr (le_of_lt hgt)]
      simp only [List.countP_cons, h1, h2, List.length_cons, if_true,
        Bool.false_eq_true, if_false]
      omega

/-- C3 amended: the negative-channel count fraction equals 1 minus the
positive-channel count fraction for every batch in which no slice has exactly
equal channels; tied slices are counted in neither column, so with ties the
two columns sum to less than 1. -/
theorem count_columns_amended (preds : List Pred) (S i : ℕ)
    (hi : i < preds.length / S)
    (hnotie : ∀ p ∈ batchSlice preds S i, p.1 ≠ p.2) :
    ((predictions_structure_count preds S).getD i (0, 0)).1 =
      1 - ((predictions_structure_count preds S).getD i (0, 0)).2 := by
  have hS : 0 < S := pos_of_lt_div hi
  have hSQ : (S : ℚ) ≠ 0 := Nat.cast_ne_zero.mpr hS.ne'
  have hblen : (batchSlice preds S i).length = S := batchSlice_length preds S i hi
  have hcnt := structure_count_getD preds S i hi
  rw [hcnt]
  have hsplit : (batchSlice preds S i).countP (fun p => decide (p.2 < p.1)) +
      (batchSlice preds S i).countP (fun p => decide (p.1 < p.2)) = S := by
    rw [countP_gt_add_countP_lt (batchSlice preds S i) hnotie, hblen]
  have hcast : ((batchSlice preds S i).countP (fun p => decide (p.2 < p.1)) : ℚ) +
      ((batchSlice preds S i).countP (fun p => decide (p.1 < p.2)) : ℚ) = (S : ℚ) := by
    exact_mod_cast hsplit
  push_cast
  field_simp
  linarith

lemma sum_map_add {α : Type} (l : List α) (f g : α → ℕ) :
    (l.map (fun x => f x + g x)).sum = (l.map f).sum + (l.map g).sum := by
  induction l with
  | nil => simp
  | cons a l ih =>
    simp only [List.map_cons, List.sum_cons, ih]
    omega

lemma sum_map_ite_mem {l : List ℤ} (a : ℤ) (c : ℕ) (hnd : l.Nodup)
    (ha : a ∈ l) : (l.map (fun i => if a = i then c else 0)).sum = c := by
  induction l with
  | nil => cases ha
  | cons b l ih =>
    rcases List.mem_cons.mp ha with rfl | hmem
    · have hnot : a ∉ l := (List.nodup_cons.mp hnd).1
      simp only [List.map_cons, List.sum_cons, if_pos rfl]
      have hz : (l.map (fun i => if a = i then c else 0)).sum = 0 := by
        apply List.sum_eq_zero
        intro x hx
        obtain ⟨i, hi, rfl⟩ := List.mem_map.mp hx
        rw [if_neg]
        intro h
        exact hnot (h ▸ hi)
      rw [hz]
      simp
    · have hbne : a ≠ b := by
        rintro rfl
        exact (List.nodup_cons.mp hnd).1 hmem
      simp only [List.map_cons, List.sum_cons, if_neg hbne]
      rw [ih (List.nodup_cons.mp hnd).2 hmem]
      omega

/-- Every sample of `zs` is counted exactly once across the full label grid,
provided the label list has no duplicates and covers both coordinates. -/
lemma double_count (lv : List ℤ) (zs : List (ℤ × ℤ)) (hnd : lv.Nodup)
    (hmem : ∀ z ∈ zs, z.1 ∈ lv ∧ z.2 ∈ lv) :
    (lv.map (fun i => (lv.map (fun j =>
        zs.countP (fun x => x.1 == i && x.2 == j))).sum)).sum = zs.length := by
  induction zs with
  | nil =>
    simp only [List.countP_nil, List.length_nil]
    apply List.sum_eq_zero
    intro x hx
    obtain ⟨i, hi, rfl⟩ := List.mem_map.mp hx
    apply List.sum_eq_zero
    intro y hy
    obtain ⟨j, hj, rfl⟩ := List.mem_map.mp hy
    rfl
  | cons z zs ih =>
    have hz := hmem z (List.mem_cons_self z zs)
    have ht := ih fun w hw => hmem w (List.mem_cons_of_mem _ hw)
    have hstep : ∀ i j : ℤ, (z :: zs).countP (fun x => x.1 == i && x.2 == j) =
        zs.countP (fun x => x.1 == i && x.2 == j) +
          (if z.1 = i ∧ z.2 = j then 1 else 0) := by
      intro i j
      rw [List.countP_cons]
      congr 1
      by_cases h : z.1 = i ∧ z.2 = j
      · rw [if_pos (by simp [h.1, h.2]), if_pos h]
      · rw [if_neg (by simpa using h), if_neg h]
    have hinner : ∀ i ∈ lv, (lv.map (fun j =>
        if z.1 = i ∧ z.2 = j then (1 : ℕ) else 0)).sum =
          if z.1 = i then 1 else 0 := by
      intro i _
      by_cases hzi : z.1 = i
      · rw [if_pos hzi]
        have he : (fun j => if z.1 = i ∧ z.2 = j then (1 : ℕ) else 0) =
            (fun j => if z.2 = j then (1 : ℕ) else 0) := by
          funext j
          by_cases hj : z.2 = j
          · rw [if_pos ⟨hzi, hj⟩, if_pos hj]
          · rw [if_neg (fun hc => hj hc.2), if_neg hj]
        rw [he]
        exact sum_map_ite_mem z.2 1 hnd hz.2
      · rw [if_neg hzi]
        apply List.sum_eq_zero
        intro x hx
        obtain ⟨j, _, rfl⟩ := List.mem_map.mp hx
        rw [if_neg (fun hc => hzi hc.1)]
    calc (lv.map (fun i => (lv.map (fun j =>
          (z :: zs).countP (fun x => x.1 == i && x.2 == j))).sum)).sum
        = (lv.map (fun i => (lv.map (fun j =>
            zs.countP (fun x => x.1 == i && x.2 == j) +
              (if z.1 = i ∧ z.2 = j then 1 else 0))).sum)).sum := by
          refine congrArg List.sum (List.map_congr_left fun i _ => ?_)
          exact congrArg List.sum (List.map_congr_left fun j _ => hstep i j)
      _ = (lv.map (fun i =>
            (lv.map (fun j => zs.countP (fun x => x.1 == i && x.2 == j))).sum +
            (lv.map (fun j => if z.1 = i ∧ z.2 = j then 1 else 0)).sum)).sum := by
          refine congrArg List.sum (List.map_congr_left fun i _ => ?_)
          exact sum_map_add lv _ _
      _ = (lv.map (fun i => (lv.map (fun j =>
            zs.countP (fun x => x.1 == i && x.2 == j))).sum)).sum +
          (lv.map (fun i =>
            (lv.map (fun j => if z.1 = i ∧ z.2 = j then 1 else 0)).sum)).sum :=
          sum_map_add lv _ _
      _ = zs.length + 1 := by
          rw [ht]
          congr 1
          rw [List.map_congr_left hinner]
          exact sum_map_ite_mem z.1 1 hnd hz.1
      _ = (z :: zs).length := (List.length_cons z zs).symm

/-- Witness for C3 amended on the tie-free batch [(0.3, 0.7)]. -/
theorem count_columns_amended_witness :
    ((predictions_structure_count [((3 : ℚ)/10, 7/10)] 1).getD 0 (0, 0)).1 =
      1 - ((predictions_structure_count [((3 : ℚ)/10, 7/10)] 1).getD 0 (0, 0)).2 := by
  refine count_columns_amended [((3 : ℚ)/10, 7/10)] 1 0 (by simp) ?_
  intro p hp
  simp [batchSlice] at hp
  rw [hp]
  norm_num

/-- C7: for equal-length nonempty predicted/true label sequences, the cells
of the confusion matrix sum to the common sequence length. -/
theorem confusion_matrix_sum (pred tru : List ℤ)
    (hlen : pred.length = tru.length) (h0 : 0 < pred.length) :
    matrixSum (confusion_matrix pred tru) = pred.length := by
  have hnd : (cmLabelValues pred tru).Nodup := by
    rw [cmLabelValues]
    exact (List.perm_insertionSort _ _).nodup_iff.mpr (List.nodup_dedup _)
  have hmem : ∀ z ∈ pred.zip tru,
      z.1 ∈ cmLabelValues pred tru ∧ z.2 ∈ cmLabelValues pred tru := by
    intro z hz
    obtain ⟨a, b⟩ := z
    have hab := List.of_mem_zip hz
    constructor
    · rw [cmLabelValues, List.mem_insertionSort, List.mem_dedup, List.mem_append]
      exact Or.inl hab.1
    · rw [cmLabelValues, List.mem_insertionSort, List.mem_dedup, List.mem_append]
      exact Or.inr hab.2
  have key := double_count (cmLabelValues pred tru) (pred.zip tru) hnd hmem
  rw [matrixSum, confusion_matrix, List.map_map]
  have hcomp : (List.sum ∘ fun i => (cmLabelValues pred tru).map
      (fun j => (pred.zip tru).countP (fun x => x.1 == i && x.2 == j))) =
      fun i => ((cmLabelValues pred tru).map
      (fun j => (pred.zip tru).countP (fun x => x.1 == i && x.2 == j))).sum := rfl
  rw [hcomp, key]
  simp [hlen]

/-- Witness for C7 at predicted [1, 0], true [1, 1]. -/
theorem confusion_matrix_sum_witness :
    matrixSum (confusion_matrix [1, 0] [1, 1]) = 2 := by
  have h := confusion_matrix_sum [1, 0] [1, 1] (by simp) (by simp)
  simpa using h

lemma last_uscore_digit_isSome : ∀ stem : List Char,
    (last_uscore_digit stem).isSome = true ↔
      ∃ j, j + 1 < stem.length ∧ stem.getD j 'a' = '_' ∧
        (stem.getD (j + 1) 'a').isDigit := by
  intro stem
  induction stem with
  | nil => simp [last_uscore_digit]
  | cons a rest ih =>
    cases rest with
    | nil => simp [last_uscore_digit]
    | cons b rest' =>
      cases hrec : last_uscore_digit (b :: rest') with
      | some j =>
        have hlhs : last_uscore_digit (a :: b :: rest') = some (j + 1) := by
          simp only [last_uscore_digit, hrec]
        obtain ⟨j', hj1, hj2, hj3⟩ := ih.mp (by rw [hrec]; rfl)
        rw [hlhs]
        simp only [Option.isSome_some, true_iff]
        refine ⟨j' + 1, ?_, ?_, ?_⟩
        · simpa [List.length_cons] using Nat.succ_lt_succ hj1
        · simpa [List.getD_cons_succ] using hj2
        · simpa [List.getD_cons_succ] using hj3
      | none =>
        by_cases hc : (a == '_' && b.isDigit) = true
        · have hlhs : last_uscore_digit (a :: b :: rest') = some 0 := by
            simp only [last_uscore_digit, hrec, if_pos hc]
          rw [hlhs]
          simp only [Option.isSome_some, true_iff]
          have hab := hc
          simp only [Bool.and_eq_true, beq_iff_eq] at hab
          exact ⟨0, by simp [List.length_cons], by simpa using hab.1,
            by simpa using hab.2⟩
        · have hlhs : last_uscore_digit (a :: b :: rest') = none := by
            simp only [last_uscore_digit, hrec, if_neg hc]
          rw [hlhs]
          simp only [Option.isSome_none, Bool.false_eq_true, false_iff]
          rintro ⟨j, hj1, hj2, hj3⟩
          cases j with
          | zero =>
            simp only [List.getD_cons_zero] at hj2
            simp only [List.getD_cons_succ, List.getD_cons_zero] at hj3
            exact hc (by simp [hj2, hj3])
          | succ j' =>
            have hsome : (last_uscore_digit (b :: rest')).isSome = true := by
              refine ih.mpr ⟨j', ?_, ?_, ?_⟩
              · simpa [List.length_cons] using hj1
              · simpa [List.getD_cons_succ] using hj2
              · simpa [List.getD_cons_succ] using hj3
            rw [hrec] at hsome
            exact absurd hsome (by simp)

/-- C8: the stem "abc" (no underscore-digit suffix) makes the findall-based
name extraction of line 62 fail with IndexError (modelled as `none`), and in
general extraction succeeds exactly when some position of the stem holds an
underscore immediately followed by a digit. -/
theorem structure_name_extraction :
    structure_name ("abc".toList) = none ∧
    ∀ stem : List Char, (structure_name stem).isSome = true ↔
      ∃ j, j + 1 < stem.length ∧ stem.getD j 'a' = '_' ∧
        (stem.getD (j + 1) 'a').isDigit := by
  constructor
  · rfl
  · intro stem
    rw [structure_name, Option.isSome_map']
    exact last_uscore_digit_isSome stem

/-- C9: under the cardinality precondition, `evaluate` succeeds for every
label sequence — no constancy or contiguity of labels inside a batch is
checked — and the per-structure true label is exactly the first label of
each batch, `labels[slices_per_structure * i]`. -/
theorem structure_labels_first_of_batch (preds : List Pred) (labels : List ℤ)
    (S : ℕ) (hlen : labels.length = preds.length) (h0 : 0 < preds.length)
    (hmod : preds.length % S = 0) :
    ∃ r, evaluate preds labels S = Except.ok r ∧
      r.structure_true.length = preds.length / S ∧
      ∀ i, i < preds.length / S →
        r.structure_true.getD i 0 = (labels.drop (S * i)).headD 0 := by
  refine ⟨evalTables preds labels S, ?_, ?_, ?_⟩
  · rw [evaluate, if_neg (by omega), if_neg (not_not_intro hmod)]
  · show (testing_info_by_structure labels S).length = preds.length / S
    simp [testing_info_by_structure, hlen]
  · intro i hi
    show (testing_info_by_structure labels S).getD i 0 =
      (labels.drop (S * i)).headD 0
    have hi' : i < labels.length / S := by rw [hlen]; exact hi
    rw [testing_info_by_structure, getD_range_map _ _ _ _ hi',
      List.headD_eq_head?_getD, List.head?_drop, List.getD_eq_getElem?_getD]

/-- Witness for C9 on a batch whose two slices carry different true labels:
the run still succeeds and reports the first label. -/
theorem structure_labels_first_of_batch_witness :
    ∃ r, evaluate [((0 : ℚ), 1), ((0 : ℚ), 1)] [0, 1] 2 = Except.ok r ∧
      r.structure_true.length = 1 ∧
      r.structure_true.getD 0 0 = 0 := by
  obtain ⟨r, h1, h2, h3⟩ := structure_labels_first_of_batch
    [((0 : ℚ), 1), ((0 : ℚ), 1)] [0, 1] 2 (by simp) (by simp) (by simp)
  refine ⟨r, h1, by simpa using h2, ?_⟩
  have h4 := h3 0 (by simp)
  simpa using h4

/-- C10: under the cardinality precondition, every report-building call in
`evaluate` receives predicted and true sequences of equal, strictly positive
length: L at slice granularity and L / S at structure granularity. -/
theorem report_lengths_match (preds : List Pred) (labels : List ℤ) (S : ℕ)
    (hlen : labels.length = preds.length) (h0 : 0 < preds.length)
    (hmod : preds.length % S = 0) :
    ∃ r, evaluate preds labels S = Except.ok r ∧
      r.per_image_pred.length = preds.length ∧
      r.per_image_true.length = preds.length ∧
      r.struct_avg_pred.length = preds.length / S ∧
      r.struct_count_pred.length = preds.length / S ∧
      r.structure_true.length = preds.length / S ∧
      0 < preds.length / S := by
  have hS : 0 < S := by
    rcases Nat.eq_zero_or_pos S with rfl | h
    · rw [Nat.mod_zero] at hmod
      omega
    · exact h
  have hq : 0 < preds.length / S :=
    Nat.div_pos (Nat.le_of_dvd h0 (Nat.dvd_of_mod_eq_zero hmod)) hS
  refine ⟨evalTables preds labels S, ?_, ?_, hlen, ?_, ?_, ?_, hq⟩
  · rw [evaluate, if_neg (by omega), if_neg (not_not_intro hmod)]
  · show (predictions_decoded preds).length = preds.length
    simp [predictions_decoded]
  · show (predictions_struct_avg_flat preds S).length = preds.length / S
    simp [predictions_struct_avg_flat, predictions_structure_avg]
  · show (predictions_struct_count_flat preds S).length = preds.length / S
    simp [predictions_struct_count_flat, predictions_structure_count]
  · show (testing_info_by_structure labels S).length = preds.length / S
    simp [testing_info_by_structure, hlen]

/-- Witness for C10 on two predictions forming one structure of two slices. -/
theorem report_lengths_match_witness :
    ∃ r, evaluate [((0 : ℚ), 1), ((1 : ℚ), 0)] [1, 1] 2 = Except.ok r ∧
      r.per_image_pred.length = 2 ∧ r.structure_true.length = 1 := by
  obtain ⟨r, h1, h2, _, _, _, h6, _⟩ := report_lengths_match
    [((0 : ℚ), 1), ((1 : ℚ), 0)] [1, 1] 2 (by simp) (by simp) (by simp)
  exact ⟨r, h1, by simpa using h2, by simpa using h6⟩

end Topaz3
